import Mathlib

/-!
Verification of the pagination / count-probe / history-filter core of
`src/jira_downloader.py` (a JIRA ticket downloader).

The script is embedded shallowly:

* JSON values (the results of Python `json.loads`) are the inductive `Json`;
  Python dictionaries become association lists whose lookup and update follow
  Python dict semantics (lookup finds the one binding of a key, assignment
  replaces an existing binding in place and otherwise appends a new one).
* Side-effecting calls (`curl` via `subprocess.run`, `json.loads`) are
  abstracted by their results: `fetch_issues_slice` returns `Option Json`,
  `none` standing for the two caught failure cases (non-zero exit status of
  curl, JSON decode error), in which the Python function returns `None`.
* Python control flow that raises an uncaught exception on non-conforming
  data (for example calling `.get` on a non-dict) is modelled by `Option`
  with `none` for the abnormal termination.
* Log output relevant to the claims (the per-page warning naming an offset)
  is modelled by returning the list of warned offsets alongside the data.
-/

set_option autoImplicit false

namespace JiraDownloader

/-- Result of `json.loads`: a JSON value.  Objects are association lists in
insertion order, since the claims under study concern key updates that Python
performs in place. -/
inductive Json where
  | null : Json
  | bool (b : Bool) : Json
  | num (n : Int) : Json
  | str (s : String) : Json
  | arr (elems : List Json) : Json
  | obj (entries : List (String × Json)) : Json
  deriving Repr

/-- Python dict lookup `d.get(key)` / `key in d`: the binding of `key`
(association lists produced by `json.loads` bind each key once; we read the
first binding). -/
def objGet : List (String × Json) → String → Option Json
  | [], _ => none
  | (k, v) :: rest, key => if k = key then some v else objGet rest key

/-- Python dict assignment `d[key] = v`: replaces the existing binding of
`key` in place, otherwise appends a new binding at the end. -/
def objSet : List (String × Json) → String → Json → List (String × Json)
  | [], key, v => [(key, v)]
  | (k, w) :: rest, key, v =>
      if k = key then (key, v) :: rest else (k, w) :: objSet rest key v

/-- Python truthiness of a decoded JSON value (`if not initial`,
`if data and ...`). -/
def pyTruthy : Json → Bool
  | .null => false
  | .bool b => b
  | .num n => n != 0
  | .str s => s ≠ ""
  | .arr elems => ¬ elems.isEmpty
  | .obj entries => ¬ entries.isEmpty

/-! Pagination (`main`, step 5): `max_per_request = 1000`,
`offsets = list(range(0, total, max_per_request))`, and one task
`fetch_issues_slice(..., start, max_per_request)` submitted per offset. -/

/-- Python `range(start, stop, step)` for a positive step, as a list. -/
def pyRange (start stop step : Nat) : List Nat :=
  (List.range (if start < stop then (stop - start + step - 1) / step else 0)).map
    (fun i => start + i * step)

/-- Fixed page size of the paginator (`max_per_request = 1000`). -/
def max_per_request : Nat := 1000

/-- Offsets of the page requests (`offsets = list(range(0, total, max_per_request))`). -/
def offsets (total : Nat) : List Nat :=
  pyRange 0 total max_per_request

/-- One page request: the `startAt` and `maxResults` arguments of a submitted
`fetch_issues_slice` task. -/
structure PageRequest where
  startAt : Nat
  maxResults : Nat
  deriving Repr, DecidableEq

/-- Page requests submitted to the `ThreadPoolExecutor`: one per offset, each
with page size `max_per_request` (the code always passes `max_per_request` as
`maxResults`, also for the final page). -/
def page_requests (total : Nat) : List PageRequest :=
  (offsets total).map (fun s => ⟨s, max_per_request⟩)

/-! Percent-encoding (`urllib.parse.quote(s, safe='')` at lines 89-90 and 93).
Python encodes the UTF-8 bytes of the string, leaving only the always-safe
characters (ASCII letters, digits, and the four marks underscore, dot,
hyphen, tilde) unescaped; every other byte becomes a percent sign followed by
two uppercase hex digits. -/

/-- UTF-8 encoding of one Unicode code point, as a list of byte values. -/
def utf8Bytes (c : Char) : List Nat :=
  if c.toNat < 0x80 then [c.toNat]
  else if c.toNat < 0x800 then [0xC0 + c.toNat / 0x40, 0x80 + c.toNat % 0x40]
  else if c.toNat < 0x10000 then
    [0xE0 + c.toNat / 0x1000, 0x80 + (c.toNat / 0x40) % 0x40, 0x80 + c.toNat % 0x40]
  else
    [0xF0 + c.toNat / 0x40000, 0x80 + (c.toNat / 0x1000) % 0x40,
     0x80 + (c.toNat / 0x40) % 0x40, 0x80 + c.toNat % 0x40]

/-- Characters `quote` never escapes (Python `_ALWAYS_SAFE`, with `safe=''`
ruling out everything else): ASCII letters, digits, `_`, `.`, `-`, `~`. -/
def alwaysSafe (b : Nat) : Bool :=
  (0x41 ≤ b && b ≤ 0x5A) || (0x61 ≤ b && b ≤ 0x7A) ||
  (0x30 ≤ b && b ≤ 0x39) || b == 0x2D || b == 0x2E || b == 0x5F || b == 0x7E

/-- Uppercase hexadecimal digit for a value below 16. -/
def hexDigit (n : Nat) : Char :=
  if n < 10 then Char.ofNat (0x30 + n) else Char.ofNat (0x37 + n)

/-- Percent-encoding of a single byte: the byte itself if always-safe,
otherwise a percent escape with two uppercase hex digits. -/
def quoteByte (b : Nat) : List Char :=
  if alwaysSafe b then [Char.ofNat b] else ['%', hexDigit (b / 16), hexDigit (b % 16)]

/-- Python `urllib.parse.quote(s, safe='')`: percent-encode every non-safe
byte of the UTF-8 encoding of `s`. -/
def quote (s : String) : String :=
  String.mk ((s.data.flatMap utf8Bytes).flatMap quoteByte)

/-- Value of a hexadecimal digit character (either case), if it is one. -/
def hexVal (c : Char) : Option Nat :=
  let n := c.toNat
  if 0x30 ≤ n ∧ n ≤ 0x39 then some (n - 0x30)
  else if 0x41 ≤ n ∧ n ≤ 0x46 then some (n - 0x37)
  else if 0x61 ≤ n ∧ n ≤ 0x66 then some (n - 0x57)
  else none

/-- Percent-decoding to bytes: each `%`-escape becomes its byte, every other
character stands for its own code point.  (Python `unquote` leaves a
malformed escape in place; here a malformed escape is rejected, which is
irrelevant on the well-formed output of `quote`.) -/
def percentDecode : List Char → Option (List Nat)
  | [] => some []
  | c :: rest =>
    if c = '%' then
      match rest with
      | h1 :: h2 :: rest1 => do
        let d1 ← hexVal h1
        let d2 ← hexVal h2
        let tail ← percentDecode rest1
        pure ((16 * d1 + d2) :: tail)
      | _ => none
    else do
      let tail ← percentDecode rest
      pure (c.toNat :: tail)

/-- Length of a UTF-8 sequence, from its leading byte (`none` for a stray
continuation byte). -/
def utf8SeqLen (b : Nat) : Option Nat :=
  if b < 0x80 then some 1
  else if b < 0xC0 then none
  else if b < 0xE0 then some 2
  else if b < 0xF0 then some 3
  else some 4

/-- Code point of a UTF-8 sequence, from its leading byte and continuation
bytes. -/
def utf8Combine (b : Nat) : List Nat → Nat
  | [] => b
  | [b1] => (b - 0xC0) * 0x40 + (b1 - 0x80)
  | [b1, b2] => (b - 0xE0) * 0x1000 + (b1 - 0x80) * 0x40 + (b2 - 0x80)
  | b1 :: b2 :: b3 :: _ =>
    (b - 0xF0) * 0x40000 + (b1 - 0x80) * 0x1000 + (b2 - 0x80) * 0x40 + (b3 - 0x80)

/-- UTF-8 decoding of a byte list back to code points, keyed on the leading
byte of each sequence (lenient on continuation-byte ranges, which suffices to
invert `utf8Bytes`). -/
def utf8Decode : List Nat → Option (List Char)
  | [] => some []
  | b :: rest => do
    let len ← utf8SeqLen b
    if rest.length ≥ len - 1 then
      let tail ← utf8Decode (rest.drop (len - 1))
      pure (Char.ofNat (utf8Combine b (rest.take (len - 1))) :: tail)
    else none
termination_by l => l.length
decreasing_by simp; omega

/-- Python `urllib.parse.unquote`: percent-decode to bytes, then decode the
bytes as UTF-8. -/
def unquote (s : String) : Option String := do
  let bytes ← percentDecode s.data
  let chars ← utf8Decode bytes
  pure (String.mk chars)

/-- URL built by `fetch_issues_slice` (lines 89-93): the `search` endpoint
with `jql` and `fields` percent-encoded, plus an `expand` parameter exactly
when `expand_param` is a non-empty string. -/
def fetch_issues_slice_url (jira_url jql fields_param expand_param : String)
    (start_at max_results : Nat) : String :=
  let url := jira_url ++ "/rest/api/2/search?jql=" ++ quote jql ++
    "&startAt=" ++ toString start_at ++ "&maxResults=" ++ toString max_results ++
    "&fields=" ++ quote fields_param
  if expand_param ≠ "" then url ++ "&expand=" ++ quote expand_param else url

/-! Field configuration (`main`, step 4): the entries of
`fields_config.json` that the claims depend on. -/

/-- One entry of the field-selection list: the field identifier and its two
booleans (`download`, `downloadHistory`). -/
structure FieldConfig where
  id : String
  download : Bool
  downloadHistory : Bool
  deriving Repr, DecidableEq

/-- Value of `expand` in `main`: the string `changelog` when history was
requested for at least one field, otherwise the empty string. -/
def mainExpand (fields : List FieldConfig) : String :=
  if fields.any (·.downloadHistory) then "changelog" else ""

/-- Value of `fields_param` in `main`: comma-joined identifiers of the fields
marked for download. -/
def mainFieldsParam (fields : List FieldConfig) : String :=
  String.intercalate "," ((fields.filter (·.download)).map (·.id))

/-- Value of `history_fields` in `main` (line 179): identifiers of the fields
whose history was requested.  (The Python value is a set; the filter only
asks membership questions, so a list of the same elements is faithful.) -/
def mainHistoryFields (fields : List FieldConfig) : List String :=
  (fields.filter (·.downloadHistory)).map (·.id)

/-! Count probe (`main`, step 5, lines 148-158).  `fetch_issues_slice` is
called once with `start_at=0, max_results=1`; its result is `None` on a curl
failure or a JSON decode error.  `main` then exits with status 1 when the
result is falsy, and otherwise reads `initial.get('total', 0)`. -/

/-- The `startAt` and `maxResults` arguments of the single count-probe
request. -/
def probe_request : PageRequest := ⟨0, 1⟩

/-- Total used for pagination, from the decoded initial response: `none` when
the run never reaches the pagination phase (the explicit `sys.exit(1)` on a
falsy `initial`, or an uncaught `AttributeError` on a truthy non-dict, or a
`TypeError` in `range` on a non-integer total), `some t` when pagination
proceeds with total `t`.  A decoded object without a `total` key falls back
to `0` via `initial.get('total', 0)`. -/
def probeTotal (initial : Option Json) : Option Int :=
  match initial with
  | none => none
  | some j =>
    if pyTruthy j then
      match j with
      | .obj entries =>
        match objGet entries "total" with
        | some (.num n) => some n
        | some _ => none
        | none => some 0
      | _ => none
    else none

/-! Merge loop (`main`, step 6, lines 167-174).  Completed futures are
processed in completion order; a result that is truthy and carries an
`issues` key has `data['issues']` extended element-wise onto `all_issues`
(with an INFO line), anything else prints a warning line naming the offset,
and the shapes on which line 170, 171 or 172 raises an uncaught `TypeError`
terminate the whole run. -/

/-- Outcome of one completed page future as the merge loop treats it: the
elements extended onto `all_issues` (the success branch, with its INFO
line), the warning branch naming the offset, or an uncaught `TypeError`
that aborts the whole run. -/
inductive PageOutcome where
  | ok (issues : List Json) : PageOutcome
  | warn : PageOutcome
  | crash : PageOutcome
  deriving Repr

/-- Occurrence of `needle` as a contiguous run of `hay` (Python substring
membership, on character lists). -/
def containsSub (needle : List Char) : List Char → Bool
  | [] => needle.isEmpty
  | c :: rest => needle.isPrefixOf (c :: rest) || containsSub needle rest

/-- Python membership `'issues' in data` for a truthy decoded value: key
membership on a dict, element equality on a list (a decoded element equals
the string `issues` exactly when it is that string), substring search on a
string; `none` models the `TypeError` raised on a number or boolean
(argument not iterable). -/
def pyInIssues : Json → Option Bool
  | .obj entries => some (objGet entries "issues").isSome
  | .arr elems =>
    some (elems.any fun e =>
      match e with
      | .str t => t == "issues"
      | _ => false)
  | .str s => some (containsSub "issues".data s.data)
  | _ => none

/-- Branching of lines 170-174 on one future result (`data = None` on a
failed fetch).  `if data and 'issues' in data` succeeds only on a truthy
value containing `issues`; on the success branch `len(data['issues'])` and
`all_issues.extend(data['issues'])` accept a list (its elements), a string
(its characters, appended one-character strings) or a dict (its keys), and
raise `TypeError` on anything else; subscripting a truthy non-dict by the
string `issues` raises as well.  Anything falsy, or truthy without
`issues`, takes the warning branch. -/
def classify (data : Option Json) : PageOutcome :=
  match data with
  | none => .warn
  | some j =>
    if pyTruthy j then
      match pyInIssues j with
      | none => .crash
      | some false => .warn
      | some true =>
        match j with
        | .obj entries =>
          match objGet entries "issues" with
          | some (.arr issues) => .ok issues
          | some (.str s) => .ok (s.data.map fun c => Json.str (String.mk [c]))
          | some (.obj o) => .ok (o.map fun e => Json.str e.1)
          | _ => .crash
        | _ => .crash
    else .warn

/-- Elements a page contributes to `all_issues`: its extended elements on
the success branch, nothing otherwise. -/
def pageIssues (data : Option Json) : List Json :=
  match classify data with
  | .ok issues => issues
  | .warn => []
  | .crash => []

/-- Whether a page outcome is the warning branch. -/
def isWarn : PageOutcome → Bool
  | .ok _ => false
  | .warn => true
  | .crash => false

/-- Whether a page outcome is an uncaught `TypeError`. -/
def isCrash : PageOutcome → Bool
  | .ok _ => false
  | .warn => false
  | .crash => true

/-- Merge loop over the completed futures in completion order, pairing each
future with its offset (`futures[future]`): `all_issues` and the offsets
named in `WARN` log lines, both in processing order, or `none` when a future
makes the loop raise an uncaught `TypeError` (the run dies there). -/
def mergeResults : List (Nat × Option Json) → Option (List Json × List Nat)
  | [] => some ([], [])
  | (start, data) :: rest =>
    match classify data with
    | .ok issues => (mergeResults rest).map (fun acc => (issues ++ acc.1, acc.2))
    | .warn => (mergeResults rest).map (fun acc => (acc.1, start :: acc.2))
    | .crash => none

/-- Whole pagination phase for a fetch oracle `fetch` (the decoded response
of `fetch_issues_slice` at each offset, `none` for a failed page): submit one
page request per offset and merge the results.  `as_completed` yields the
futures in a nondeterministic completion order; the claims proved below are
order-insensitive, so the submission order stands in for it. -/
def runPagination (fetch : Nat → Option Json) (total : Nat) :
    Option (List Json × List Nat) :=
  mergeResults ((offsets total).map (fun s => (s, fetch s)))

/-! History filter (`main`, step 7, lines 176-190).  For each issue carrying
a `changelog` key, the histories list is rebuilt: an entry keeps only the
change items whose `field` is in `history_fields`, and is dropped when no
item remains; the result is assigned back to `issue['changelog']['histories']`. -/

/-- One pass of `item.get('field') in history_fields` (line 186): `none`
models the `TypeError` Python raises when the item is not a dict or its
`field` value is unhashable (a list or dict); `.get` of a missing key gives
`None`, which is not in a set of strings, and so does any non-string
hashable value. -/
def itemKeep (history_fields : List String) (item : Json) : Option Bool :=
  match item with
  | .obj entries =>
    match objGet entries "field" with
    | some (.str s) => some (history_fields.contains s)
    | some (.arr _) => none
    | some (.obj _) => none
    | _ => some false
  | _ => none

/-- The list comprehension of line 186: items whose `field` is in
`history_fields`, in order. -/
def filterItems (history_fields : List String) : List Json → Option (List Json)
  | [] => some []
  | item :: rest => do
    let keep ← itemKeep history_fields item
    let tail ← filterItems history_fields rest
    pure (if keep then item :: tail else tail)

/-- Body of the `for hist in original` loop (lines 184-189) for one entry:
`some none` when the entry is dropped (no item survived), `some (some h)`
when it is kept as `h` with its `items` reassigned, and `none` for the
abnormal cases (a non-dict entry, or an `items` value that is not a list). -/
def filterHist (history_fields : List String) (hist : Json) : Option (Option Json) :=
  match hist with
  | .obj entries =>
    match
      (match objGet entries "items" with
       | some (.arr items) => some items
       | none => some []
       | some _ => none) with
    | none => none
    | some items =>
      match filterItems history_fields items with
      | none => none
      | some kept =>
        if kept.isEmpty then some none
        else some (some (.obj (objSet entries "items" (.arr kept))))
  | _ => none

/-- The whole loop of lines 183-189: the `filtered` list, in order. -/
def filterHistories (history_fields : List String) : List Json → Option (List Json)
  | [] => some []
  | hist :: rest => do
    let kept ← filterHist history_fields hist
    let tail ← filterHistories history_fields rest
    pure (match kept with | some h => h :: tail | none => tail)

/-- Body of the `for issue in all_issues` loop (lines 180-190) for one
issue: an issue without a `changelog` key is untouched; otherwise the
histories list (`issue['changelog'].get('histories', [])`) is filtered and
assigned back.  `none` models the exceptions Python raises on non-conforming
shapes (a non-dict issue or changelog, a non-list histories value). -/
def filterIssue (history_fields : List String) (issue : Json) : Option Json :=
  match issue with
  | .obj entries =>
    match objGet entries "changelog" with
    | none => some issue
    | some (.obj changelog) =>
      match
        (match objGet changelog "histories" with
         | some (.arr histories) => some histories
         | none => some []
         | some _ => none) with
      | none => none
      | some histories =>
        match filterHistories history_fields histories with
        | none => none
        | some filtered =>
          some (.obj (objSet entries "changelog"
            (.obj (objSet changelog "histories" (.arr filtered)))))
    | some _ => none
  | _ => none

/-- The full step-7 loop over `all_issues` (in order). -/
def filterIssues (history_fields : List String) : List Json → Option (List Json)
  | [] => some []
  | issue :: rest => do
    let issue1 ← filterIssue history_fields issue
    let tail ← filterIssues history_fields rest
    pure (issue1 :: tail)

/-! Specification-side restatement of the history-filter contract (spec
section 4.3), used to compare the code of lines 180-190 against the words of
the spec.  The three stages below follow the sentence of the spec: remove
every history entry whose change items do not touch at least one requested
field; within a retained entry, remove change items for fields not in the
requested set; drop entirely an entry left with zero items. -/

/-- Spec words: a change item touches a requested field. -/
def specItemTouches (history_fields : List String) (item : Json) : Bool :=
  match item with
  | .obj entries =>
    match objGet entries "field" with
    | some (.str s) => history_fields.contains s
    | _ => false
  | _ => false

/-- Change items of a history entry (an entry without an items list has no
change items). -/
def specEntryItems (hist : Json) : List Json :=
  match hist with
  | .obj entries =>
    match objGet entries "items" with
    | some (.arr items) => items
    | _ => []
  | _ => []

/-- A history entry with its change items replaced. -/
def specSetItems (hist : Json) (items : List Json) : Json :=
  match hist with
  | .obj entries => .obj (objSet entries "items" (.arr items))
  | _ => hist

/-- Spec words, literally staged: (1) remove every entry none of whose items
touches a requested field, (2) keep only touching items inside each retained
entry, (3) drop an entry left with zero items. -/
def specFilterHistories (history_fields : List String) (histories : List Json) : List Json :=
  let stage1 := histories.filter (fun h => (specEntryItems h).any (specItemTouches history_fields))
  let stage2 := stage1.map (fun h =>
    specSetItems h ((specEntryItems h).filter (specItemTouches history_fields)))
  stage2.filter (fun h => ¬ (specEntryItems h).isEmpty)

/-- Change items on which line 186 neither keeps nor raises: dict items whose
field value, if any, is hashable. -/
def wfItem (item : Json) : Bool :=
  match item with
  | .obj entries =>
    match objGet entries "field" with
    | some (.arr _) => false
    | some (.obj _) => false
    | _ => true
  | _ => false

/-- History entries the loop of lines 184-189 processes without raising:
dict entries whose items value, if any, is a list of well-formed items. -/
def wfHist (hist : Json) : Bool :=
  match hist with
  | .obj entries =>
    match objGet entries "items" with
    | some (.arr items) => items.all wfItem
    | none => true
    | some _ => false
  | _ => false

end JiraDownloader

namespace JiraDownloader

/-! Association-list lemmas for the dict model. -/

theorem objGet_objSet_self (entries : List (String × Json)) (key : String) (v : Json) :
    objGet (objSet entries key v) key = some v := by
  induction entries with
  | nil => simp [objGet, objSet]
  | cons e rest ih =>
    by_cases h : e.1 = key <;> simp [objGet, objSet, h, ih]

theorem objSet_objSet (entries : List (String × Json)) (key : String) (v w : Json) :
    objSet (objSet entries key v) key w = objSet entries key w := by
  induction entries with
  | nil => simp [objSet]
  | cons e rest ih =>
    by_cases h : e.1 = key <;> simp [objSet, h, ih]

theorem objSet_of_objGet (entries : List (String × Json)) (key : String) (v : Json)
    (h : objGet entries key = some v) : objSet entries key v = entries := by
  induction entries with
  | nil => simp [objGet] at h
  | cons e rest ih =>
    by_cases he : e.1 = key
    · simp only [objGet, he, if_pos] at h
      obtain ⟨k, w⟩ := e
      simp_all [objSet]
    · simp only [objGet, he] at h
      simp [objSet, he, ih h]

/-! Helper lemmas for the percent-encoding round trip. -/

theorem toNat_ofNat_valid (n : Nat) (h : n < 0xD800) : (Char.ofNat n).toNat = n := by
  have hv : n.isValidChar := Or.inl h
  unfold Char.ofNat Char.ofNatAux
  simp [hv]
  rfl

theorem char_toNat_lt (c : Char) : c.toNat < 0x110000 := by
  rcases c.valid with h | h
  · exact Nat.lt_trans h (by norm_num)
  · exact h.2

theorem alwaysSafe_bounds (b : Nat) (h : alwaysSafe b = true) : b < 0x80 ∧ b ≠ 0x25 := by
  simp [alwaysSafe] at h
  omega

theorem hexVal_hexDigit (d : Nat) (h : d < 16) : hexVal (hexDigit d) = some d := by
  interval_cases d <;> decide

theorem optBindCons {α : Type} (o : Option (List α)) (x : α) :
    (do
      let t ← o
      pure (x :: t) : Option (List α)) = o.map (fun t => x :: t) := by
  cases o <;> rfl

theorem percentDecode_cons_plain (c : Char) (cs : List Char) (h : ¬ c = '%') :
    percentDecode (c :: cs) = (percentDecode cs).map (fun t => c.toNat :: t) := by
  match cs with
  | [] => simp [percentDecode, h]
  | [d] => simp only [percentDecode, if_neg h, optBindCons]
  | d :: e :: es => simp only [percentDecode, if_neg h, optBindCons]

theorem percentDecode_quoteByte (b : Nat) (hb : b < 256) (cs : List Char) :
    percentDecode (quoteByte b ++ cs) = (percentDecode cs).map (fun t => b :: t) := by
  by_cases hs : alwaysSafe b
  · obtain ⟨hlt, hne⟩ := alwaysSafe_bounds b hs
    have hd : b < 0xD800 := by omega
    have hC : ¬ Char.ofNat b = '%' := by
      intro he
      have ht := congrArg Char.toNat he
      rw [toNat_ofNat_valid b hd] at ht
      exact hne ht
    simp only [quoteByte, if_pos hs, List.cons_append, List.nil_append]
    rw [percentDecode_cons_plain _ _ hC, toNat_ofNat_valid b hd]
  · have h16a : b / 16 < 16 := by omega
    have h16b : b % 16 < 16 := by omega
    simp only [quoteByte, if_neg hs, List.cons_append, List.nil_append]
    simp only [percentDecode, if_pos rfl, hexVal_hexDigit _ h16a, hexVal_hexDigit _ h16b,
      Option.bind_eq_bind, Option.some_bind]
    have harith : 16 * (b / 16) + b % 16 = b := by omega
    rw [harith]
    cases percentDecode cs <;> rfl

theorem percentDecode_quoted (bs : List Nat) (h : ∀ b ∈ bs, b < 256) (cs : List Char) :
    percentDecode (bs.flatMap quoteByte ++ cs) = (percentDecode cs).map (fun t => bs ++ t) := by
  induction bs with
  | nil =>
    simp only [List.flatMap_nil, List.nil_append]
    cases percentDecode cs <;> rfl
  | cons b rest ih =>
    simp only [List.flatMap_cons, List.append_assoc]
    rw [percentDecode_quoteByte b (h b (by simp)) _, ih (fun x hx => h x (by simp [hx]))]
    cases percentDecode cs <;> rfl

theorem utf8Bytes_lt (c : Char) : ∀ b ∈ utf8Bytes c, b < 256 := by
  have hc : c.toNat < 0x110000 := char_toNat_lt c
  intro b hb
  unfold utf8Bytes at hb
  split_ifs at hb <;> simp at hb <;> omega

theorem utf8Decode_step1 (b : Nat) (h1 : b < 0x80) (bs : List Nat) :
    utf8Decode (b :: bs) = (utf8Decode bs).map (fun t => Char.ofNat b :: t) := by
  rw [utf8Decode]
  have hlen : utf8SeqLen b = some 1 := by
    unfold utf8SeqLen
    rw [if_pos h1]
  rw [hlen]
  simp [utf8Combine, optBindCons]
  exact optBindCons _ _

theorem utf8Decode_step2 (b b1 : Nat) (h1 : 0xC0 ≤ b) (h2 : b < 0xE0) (bs : List Nat) :
    utf8Decode (b :: b1 :: bs)
      = (utf8Decode bs).map (fun t => Char.ofNat ((b - 0xC0) * 0x40 + (b1 - 0x80)) :: t) := by
  rw [utf8Decode]
  have hlen : utf8SeqLen b = some 2 := by
    unfold utf8SeqLen
    rw [if_neg (by omega), if_neg (by omega), if_pos (by omega)]
  rw [hlen]
  simp [utf8Combine, optBindCons]
  exact optBindCons _ _

theorem utf8Decode_step3 (b b1 b2 : Nat) (h1 : 0xE0 ≤ b) (h2 : b < 0xF0) (bs : List Nat) :
    utf8Decode (b :: b1 :: b2 :: bs)
      = (utf8Decode bs).map
          (fun t => Char.ofNat ((b - 0xE0) * 0x1000 + (b1 - 0x80) * 0x40 + (b2 - 0x80)) :: t) := by
  rw [utf8Decode]
  have hlen : utf8SeqLen b = some 3 := by
    unfold utf8SeqLen
    rw [if_neg (by omega), if_neg (by omega), if_neg (by omega), if_pos (by omega)]
  rw [hlen]
  simp [utf8Combine, optBindCons]
  exact optBindCons _ _

theorem utf8Decode_step4 (b b1 b2 b3 : Nat) (h1 : 0xF0 ≤ b) (bs : List Nat) :
    utf8Decode (b :: b1 :: b2 :: b3 :: bs)
      = (utf8Decode bs).map
          (fun t => Char.ofNat ((b - 0xF0) * 0x40000 + (b1 - 0x80) * 0x1000
            + (b2 - 0x80) * 0x40 + (b3 - 0x80)) :: t) := by
  rw [utf8Decode]
  have hlen : utf8SeqLen b = some 4 := by
    unfold utf8SeqLen
    rw [if_neg (by omega), if_neg (by omega), if_neg (by omega), if_neg (by omega)]
  rw [hlen]
  simp [utf8Combine, optBindCons]
  exact optBindCons _ _

theorem utf8Decode_utf8Bytes (c : Char) (bs : List Nat) :
    utf8Decode (utf8Bytes c ++ bs) = (utf8Decode bs).map (fun t => c :: t) := by
  have hc : c.toNat < 0x110000 := char_toNat_lt c
  have hofNat : Char.ofNat c.toNat = c := Char.ofNat_toNat c
  unfold utf8Bytes
  by_cases h1 : c.toNat < 0x80
  · simp only [if_pos h1, List.cons_append, List.nil_append]
    rw [utf8Decode_step1 _ h1, hofNat]
  · by_cases h2 : c.toNat < 0x800
    · simp only [if_neg h1, if_pos h2, List.cons_append, List.nil_append]
      rw [utf8Decode_step2 _ _ (by omega) (by omega)]
      have harith : (0xC0 + c.toNat / 0x40 - 0xC0) * 0x40 + (0x80 + c.toNat % 0x40 - 0x80)
          = c.toNat := by omega
      rw [harith, hofNat]
    · by_cases h3 : c.toNat < 0x10000
      · simp only [if_neg h1, if_neg h2, if_pos h3, List.cons_append, List.nil_append]
        rw [utf8Decode_step3 _ _ _ (by omega) (by omega)]
        have harith : (0xE0 + c.toNat / 0x1000 - 0xE0) * 0x1000
            + (0x80 + c.toNat / 0x40 % 0x40 - 0x80) * 0x40
            + (0x80 + c.toNat % 0x40 - 0x80) = c.toNat := by omega
        rw [harith, hofNat]
      · simp only [if_neg h1, if_neg h2, if_neg h3, List.cons_append, List.nil_append]
        rw [utf8Decode_step4 _ _ _ _ (by omega)]
        have harith : (0xF0 + c.toNat / 0x40000 - 0xF0) * 0x40000
            + (0x80 + c.toNat / 0x1000 % 0x40 - 0x80) * 0x1000
            + (0x80 + c.toNat / 0x40 % 0x40 - 0x80) * 0x40
            + (0x80 + c.toNat % 0x40 - 0x80) = c.toNat := by omega
        rw [harith, hofNat]

theorem utf8Decode_encode (cs : List Char) :
    utf8Decode (cs.flatMap utf8Bytes) = some cs := by
  induction cs with
  | nil =>
    rw [List.flatMap_nil, utf8Decode]
  | cons c rest ih =>
    simp only [List.flatMap_cons]
    rw [utf8Decode_utf8Bytes, ih]
    rfl

theorem page_requests_len (N : Nat) :
    (page_requests N).length = (N + max_per_request - 1) / max_per_request := by
  simp [page_requests, offsets, pyRange, max_per_request]
  omega

theorem unquote_quote (s : String) : unquote (quote s) = some s := by
  have hb : ∀ b ∈ s.data.flatMap utf8Bytes, b < 256 := by
    intro b hbb
    rcases List.mem_flatMap.mp hbb with ⟨c, _, hbc⟩
    exact utf8Bytes_lt c b hbc
  have h1 := percentDecode_quoted (s.data.flatMap utf8Bytes) hb []
  rw [List.append_nil] at h1
  unfold unquote quote
  rw [show (String.mk ((s.data.flatMap utf8Bytes).flatMap quoteByte)).data
      = (s.data.flatMap utf8Bytes).flatMap quoteByte from rfl]
  rw [h1]
  rw [show percentDecode [] = some [] from rfl]
  rw [show (some ([] : List Nat)).map (fun t => s.data.flatMap utf8Bytes ++ t)
      = some (s.data.flatMap utf8Bytes) from by simp]
  simp [utf8Decode_encode]

/-- Claim C9: the query string and the field list are percent-encoded before
being concatenated into the request URL (the URL is built from `quote jql`
and `quote fields_param`), and the encoding round-trips: percent-decoding the
encoded parameter recovers the original string, for every string. -/
theorem quote_roundtrip_in_url (u jql fp : String) (s m : Nat) :
    unquote (quote jql) = some jql
    ∧ unquote (quote fp) = some fp
    ∧ fetch_issues_slice_url u jql fp "" s m
        = u ++ "/rest/api/2/search?jql=" ++ quote jql ++ "&startAt=" ++ toString s
          ++ "&maxResults=" ++ toString m ++ "&fields=" ++ quote fp :=
  ⟨unquote_quote jql, unquote_quote fp, by simp [fetch_issues_slice_url]⟩

/-- Claim C5, counterexample: at total 2500 the three page requests all ask
for 1000 rows; the final one is not reduced to 500 as the claim states. -/
theorem last_page_size_not_reduced :
    page_requests 2500 = [⟨0, 1000⟩, ⟨1000, 1000⟩, ⟨2000, 1000⟩]
    ∧ (page_requests 2500).map (fun r => r.maxResults) ≠ [1000, 1000, 500] := by
  constructor
  · decide
  · decide

/-- Claim C5, amended: when the total count is 2500 and the page size 1000,
exactly 3 page requests are generated, at offsets 0, 1000 and 2000, each with
requested page size 1000 (the code always passes `max_per_request` as
`maxResults`; the row count of the final page is capped by the server, not by
the request). -/
theorem pages_at_2500 :
    page_requests 2500 = [⟨0, 1000⟩, ⟨1000, 1000⟩, ⟨2000, 1000⟩] := by
  decide

/-- Claim C6, counterexample: the code never strips a trailing slash from the
configured base URL, so a base ending in a slash yields a double slash before
`rest/api/2/search`, not the URL the claim describes. -/
theorem url_keeps_trailing_slash :
    fetch_issues_slice_url "https://jira.example/" "q" "f" "" 0 1000
      = "https://jira.example//rest/api/2/search?jql=q&startAt=0&maxResults=1000&fields=f"
    ∧ fetch_issues_slice_url "https://jira.example/" "q" "f" "" 0 1000
      ≠ "https://jira.example/rest/api/2/search?jql=q&startAt=0&maxResults=1000&fields=f" := by
  constructor
  · rfl
  · decide

/-- Claim C6, amended: every page request URL has the shape
`<base>/rest/api/2/search?jql=<urlencoded-query>&startAt=<offset>&maxResults=<page-size>&fields=<urlencoded-field-list>`,
with `&expand=changelog` appended exactly when history was requested for at
least one field, where `<base>` is the configured base URL used verbatim (no
trailing-slash stripping). -/
theorem url_shape_verbatim_base (u jql fp : String) (fields : List FieldConfig)
    (s m : Nat) :
    fetch_issues_slice_url u jql fp (mainExpand fields) s m
      = u ++ "/rest/api/2/search?jql=" ++ quote jql ++ "&startAt=" ++ toString s
        ++ "&maxResults=" ++ toString m ++ "&fields=" ++ quote fp
        ++ (if fields.any (fun f => f.downloadHistory) then "&expand=changelog" else "") := by
  unfold fetch_issues_slice_url mainExpand
  by_cases h : fields.any (fun f => f.downloadHistory)
  · rw [if_pos h, if_pos h, if_pos (by decide : ("changelog" : String) ≠ "")]
    rw [show quote "changelog" = "changelog" from by decide]
    simp [String.append_assoc]
  · rw [if_neg h, if_neg h, if_neg (by simp : ¬ ("" : String) ≠ "")]
    simp

/-- Claim C1: for every total count N returned by the count probe, the
pagination phase generates exactly ceil(N / 1000) page requests, one per
offset 0, 1000, ..., and when N = 0 no page requests are generated and the
aggregate issue list is empty. -/
theorem pagination_request_layout (N : Nat) (fetch : Nat → Option Json) :
    (page_requests N).length = (N + max_per_request - 1) / max_per_request
    ∧ page_requests N
        = (List.range ((N + max_per_request - 1) / max_per_request)).map
            (fun i => ⟨i * max_per_request, max_per_request⟩)
    ∧ (N = 0 → page_requests N = [] ∧ runPagination fetch N = some ([], [])) := by
  refine ⟨page_requests_len N, ?_, ?_⟩
  · unfold page_requests offsets pyRange max_per_request
    simp only [List.map_map]
    rw [show (if 0 < N then (N - 0 + 1000 - 1) / 1000 else 0) = (N + 1000 - 1) / 1000 from
      by split_ifs <;> omega]
    apply List.map_congr_left
    intro i _
    simp [Function.comp]
  · intro h
    subst h
    exact ⟨rfl, rfl⟩

theorem pagination_request_layout_witness :
    page_requests 0 = [] ∧ runPagination (fun _ => none) 0 = some ([], []) :=
  (pagination_request_layout 0 (fun _ => none)).2.2 rfl

/-- Claim C2, counterexample: a response that decodes to a non-empty JSON
object lacking the total-count field does not abort the run; the falsy check
passes it and `initial.get('total', 0)` silently falls back to total 0, so
pagination proceeds (with zero pages). -/
theorem probe_missing_total_proceeds :
    probeTotal (some (Json.obj [("issues", Json.arr [])])) = some 0
    ∧ probeTotal (some (Json.obj [("issues", Json.arr [])])) ≠ none := by
  constructor
  · rfl
  · intro h
    simp [probeTotal, pyTruthy, objGet] at h

/-- Claim C2, amended: the count prober issues one request (`startAt=0,
maxResults=1`); the run aborts before any pagination work when that request
errors or its response fails to decode (the fetch returns none) and also when
the decoded value is falsy (for example the empty object); but a truthy
decoded object lacking a total-count field does not abort: the code falls
back to total 0 and proceeds.  When an integer total is present, it is
returned. -/
theorem probe_fatal_and_fallback (entries : List (String × Json))
    (hne : ¬ entries.isEmpty) :
    probe_request = ⟨0, 1⟩
    ∧ probeTotal none = none
    ∧ probeTotal (some (Json.obj [])) = none
    ∧ (∀ n : Int, objGet entries "total" = some (Json.num n) →
        probeTotal (some (Json.obj entries)) = some n)
    ∧ (objGet entries "total" = none → probeTotal (some (Json.obj entries)) = some 0) := by
  refine ⟨rfl, rfl, rfl, ?_, ?_⟩
  · intro n hn
    simp [probeTotal, pyTruthy, hne, hn]
  · intro hn
    simp [probeTotal, pyTruthy, hne, hn]

theorem probe_fatal_and_fallback_witness :
    probeTotal (some (Json.obj [("total", Json.num 2500)])) = some 2500 :=
  (probe_fatal_and_fallback [("total", Json.num 2500)] (by decide)).2.2.2.1 2500 rfl

theorem mergeResults_eq (results : List (Nat × Option Json))
    (hok : ∀ r ∈ results, isCrash (classify r.2) = false) :
    mergeResults results
      = some ((results.map (fun r => pageIssues r.2)).flatten,
          (results.filter (fun r => isWarn (classify r.2))).map (fun r => r.1)) := by
  induction results with
  | nil => rfl
  | cons r rest ih =>
    obtain ⟨start, data⟩ := r
    have hcr := hok (start, data) (by simp)
    have hrest := ih (fun x hx => hok x (by simp [hx]))
    simp only [mergeResults, List.map_cons, List.flatten_cons]
    cases h : classify data with
    | ok issues => simp [pageIssues, isWarn, h, hrest, List.filter_cons]
    | warn => simp [pageIssues, isWarn, h, hrest, List.filter_cons]
    | crash => rw [h] at hcr; simp [isCrash] at hcr

/-- Claim C3: under the lenient failure policy the merge loop implements, a
page request that fails (transport error or decode failure, so its future
yields none) lands in the warning branch: its offset is named in a warning
and it contributes nothing to the aggregate.  Provided no completed future
makes lines 170-172 raise an uncaught TypeError (the hypothesis excludes
exactly those data shapes), the loop processes every future and the run
completes, the aggregate being the concatenation of the success branches and
the warned offsets exactly the warning-branch pages; and when every page
takes the success branch, no warning is logged and the aggregate issue count
equals the sum of each page's returned issue count. -/
theorem merge_lenient_policy (results : List (Nat × Option Json))
    (hok : ∀ r ∈ results, isCrash (classify r.2) = false) :
    isWarn (classify none) = true
    ∧ mergeResults results
        = some ((results.map (fun r => pageIssues r.2)).flatten,
            (results.filter (fun r => isWarn (classify r.2))).map (fun r => r.1))
    ∧ ((∀ r ∈ results, isWarn (classify r.2) = false) →
        (results.filter (fun r => isWarn (classify r.2))).map (fun r => r.1) = []
        ∧ ((results.map (fun r => pageIssues r.2)).flatten).length
            = (results.map (fun r => (pageIssues r.2).length)).sum) := by
  refine ⟨rfl, mergeResults_eq results hok, fun hall => ⟨?_, ?_⟩⟩
  · have : results.filter (fun r => isWarn (classify r.2)) = [] :=
      List.filter_eq_nil_iff.mpr (fun r hr => by simp [hall r hr])
    rw [this]
    rfl
  · rw [List.length_flatten, List.map_map]
    rfl

theorem merge_lenient_policy_witness :
    mergeResults [(0, some (Json.obj [("issues", Json.arr [Json.null, Json.null])])),
        (1000, none)]
      = some ([Json.null, Json.null], [1000])
    ∧ mergeResults [(0, some (Json.obj [("issues", Json.arr [Json.null, Json.null])])),
        (1000, some (Json.obj [("issues", Json.arr [Json.null])]))]
      = some ([Json.null, Json.null, Json.null], []) :=
  ⟨((merge_lenient_policy
      [(0, some (Json.obj [("issues", Json.arr [Json.null, Json.null])])), (1000, none)]
      (by decide)).2.1).trans rfl,
   ((merge_lenient_policy
      [(0, some (Json.obj [("issues", Json.arr [Json.null, Json.null])])),
       (1000, some (Json.obj [("issues", Json.arr [Json.null])]))]
      (by decide)).2.1).trans rfl⟩

/-- Claim C8: the history filter never alters an issue that lacks a history
block: an issue without a `changelog` key is returned unchanged. -/
theorem history_filter_skips_no_changelog (hf : List String)
    (entries : List (String × Json)) (h : objGet entries "changelog" = none) :
    filterIssue hf (Json.obj entries) = some (Json.obj entries) := by
  simp only [filterIssue]
  rw [h]

theorem history_filter_skips_no_changelog_witness :
    filterIssue ["status"] (Json.obj [("key", Json.str "A")])
      = some (Json.obj [("key", Json.str "A")]) :=
  history_filter_skips_no_changelog ["status"] [("key", Json.str "A")] rfl

/-- Claim C10: for an issue whose changelog object lacks a `histories` key,
the filter assigns the empty list to `histories` unconditionally (line 190),
so the key is added mapped to the empty list and the issue is modified even
though it carried no history entries. -/
theorem history_filter_adds_empty_histories (hf : List String)
    (entries changelog : List (String × Json))
    (h1 : objGet entries "changelog" = some (Json.obj changelog))
    (h2 : objGet changelog "histories" = none) :
    filterIssue hf (Json.obj entries)
      = some (Json.obj (objSet entries "changelog"
          (Json.obj (objSet changelog "histories" (Json.arr [])))))
    ∧ objGet (objSet changelog "histories" (Json.arr [])) "histories"
        = some (Json.arr [])
    ∧ Json.obj (objSet entries "changelog"
          (Json.obj (objSet changelog "histories" (Json.arr [])))) ≠ Json.obj entries := by
  refine ⟨?_, objGet_objSet_self changelog "histories" (Json.arr []), ?_⟩
  · simp only [filterIssue]
    rw [h1]
    simp only [h2]
    rfl
  · intro heq
    have h0 : objSet entries "changelog"
        (Json.obj (objSet changelog "histories" (Json.arr []))) = entries := by
      injection heq
    have hget := objGet_objSet_self entries "changelog"
      (Json.obj (objSet changelog "histories" (Json.arr [])))
    rw [h0, h1] at hget
    have h3 : Json.obj changelog = Json.obj (objSet changelog "histories" (Json.arr [])) :=
      Option.some.inj hget
    have h4 : changelog = objSet changelog "histories" (Json.arr []) := by
      injection h3
    have h5 := objGet_objSet_self changelog "histories" (Json.arr [])
    rw [← h4, h2] at h5
    exact Option.noConfusion h5

theorem filter_isEmpty_eq_not_any {α : Type} (p : α → Bool) (l : List α) :
    (l.filter p).isEmpty = ! l.any p := by
  induction l with
  | nil => rfl
  | cons a rest ih =>
    cases h : p a <;> simp [List.filter_cons, h, ih]

theorem itemKeep_wf (hf : List String) (item : Json) (h : wfItem item = true) :
    itemKeep hf item = some (specItemTouches hf item) := by
  cases item with
  | obj entries =>
    simp only [itemKeep, specItemTouches]
    cases hv : objGet entries "field" with
    | none => rfl
    | some v =>
      cases v <;> simp_all [wfItem]
  | null => simp [wfItem] at h
  | bool b => simp [wfItem] at h
  | num n => simp [wfItem] at h
  | str s => simp [wfItem] at h
  | arr elems => simp [wfItem] at h

theorem filterItems_wf (hf : List String) (items : List Json)
    (h : ∀ i ∈ items, wfItem i = true) :
    filterItems hf items = some (items.filter (specItemTouches hf)) := by
  induction items with
  | nil => rfl
  | cons i rest ih =>
    simp only [filterItems]
    rw [itemKeep_wf hf i (h i (by simp)), ih (fun x hx => h x (by simp [hx]))]
    simp only [Option.bind_eq_bind, Option.some_bind, List.filter_cons]
    cases hsp : specItemTouches hf i <;> simp

theorem filterHist_wf (hf : List String) (hist : Json) (h : wfHist hist = true) :
    filterHist hf hist
      = some (if ((specEntryItems hist).filter (specItemTouches hf)).isEmpty then none
          else some (specSetItems hist
            ((specEntryItems hist).filter (specItemTouches hf)))) := by
  cases hist with
  | obj entries =>
    cases hv : objGet entries "items" with
    | none =>
      simp [filterHist, specEntryItems, specSetItems, hv,
        show filterItems hf [] = some [] from rfl]
    | some v =>
      cases v with
      | arr items =>
        have hall : ∀ i ∈ items, wfItem i = true := by
          have hwf := h
          simp only [wfHist, hv] at hwf
          exact fun i hi => List.all_eq_true.mp hwf i hi
        have hfi := filterItems_wf hf items hall
        cases hk : (items.filter (specItemTouches hf)).isEmpty <;>
          simp [filterHist, specEntryItems, specSetItems, hv, hfi, hk]
      | null => simp [wfHist, hv] at h
      | bool b => simp [wfHist, hv] at h
      | num n => simp [wfHist, hv] at h
      | str s => simp [wfHist, hv] at h
      | obj o => simp [wfHist, hv] at h
  | null => simp [wfHist] at h
  | bool b => simp [wfHist] at h
  | num n => simp [wfHist] at h
  | str s => simp [wfHist] at h
  | arr elems => simp [wfHist] at h

theorem specFilterHistories_cons (hf : List String) (hh : Json) (rest : List Json)
    (hwf : wfHist hh = true) :
    specFilterHistories hf (hh :: rest)
      = if ((specEntryItems hh).filter (specItemTouches hf)).isEmpty then
          specFilterHistories hf rest
        else
          specSetItems hh ((specEntryItems hh).filter (specItemTouches hf))
            :: specFilterHistories hf rest := by
  obtain ⟨entries, rfl⟩ : ∃ entries, hh = Json.obj entries := by
    cases hh <;> simp_all [wfHist]
  have hrel := filter_isEmpty_eq_not_any (specItemTouches hf) (specEntryItems (Json.obj entries))
  simp only [specFilterHistories, List.filter_cons]
  cases hq : (specEntryItems (Json.obj entries)).any (specItemTouches hf) with
  | false =>
    have hemp : ((specEntryItems (Json.obj entries)).filter (specItemTouches hf)).isEmpty
        = true := by rw [hrel, hq]; rfl
    simp [hemp]
  | true =>
    have hemp : ((specEntryItems (Json.obj entries)).filter (specItemTouches hf)).isEmpty
        = false := by rw [hrel, hq]; rfl
    have hset : specEntryItems (specSetItems (Json.obj entries)
        ((specEntryItems (Json.obj entries)).filter (specItemTouches hf)))
        = (specEntryItems (Json.obj entries)).filter (specItemTouches hf) := by
      simp [specSetItems, specEntryItems, objGet_objSet_self]
    simp [List.filter_cons, hset, hemp]

theorem filterHistories_wf (hf : List String) (histories : List Json)
    (h : ∀ x ∈ histories, wfHist x = true) :
    filterHistories hf histories = some (specFilterHistories hf histories) := by
  induction histories with
  | nil => rfl
  | cons hh rest ih =>
    simp only [filterHistories]
    rw [filterHist_wf hf hh (h hh (by simp)), ih (fun x hx => h x (by simp [hx])),
      specFilterHistories_cons hf hh rest (h hh (by simp))]
    cases hk : ((specEntryItems hh).filter (specItemTouches hf)).isEmpty <;> simp [hk]

/-- Claim C4: for every issue carrying a history block, the code's history
filter computes exactly the contract the spec states: it removes every
history entry none of whose change items touches a requested field, removes
change items for fields outside the requested set from each retained entry,
and drops entirely any entry left with zero change items
(`specFilterHistories` transcribes the spec's words; `filterIssue` the
code). -/
theorem history_filter_matches_spec (hf : List String)
    (entries changelog : List (String × Json)) (histories : List Json)
    (h1 : objGet entries "changelog" = some (Json.obj changelog))
    (h2 : objGet changelog "histories" = some (Json.arr histories))
    (h3 : ∀ x ∈ histories, wfHist x = true) :
    filterIssue hf (Json.obj entries)
      = some (Json.obj (objSet entries "changelog"
          (Json.obj (objSet changelog "histories"
            (Json.arr (specFilterHistories hf histories)))))) := by
  simp only [filterIssue]
  rw [h1]
  simp only [h2]
  rw [filterHistories_wf hf histories h3]

theorem history_filter_matches_spec_witness :
    filterIssue ["status"]
      (Json.obj [("fields", Json.obj [("summary", Json.str "S"), ("status", Json.str "Open")]),
        ("changelog", Json.obj [("histories", Json.arr
          [Json.obj [("items", Json.arr
             [Json.obj [("field", Json.str "status")],
              Json.obj [("field", Json.str "summary")]])],
           Json.obj [("items", Json.arr
             [Json.obj [("field", Json.str "summary")]])]])])])
      = some (Json.obj [("fields", Json.obj [("summary", Json.str "S"), ("status", Json.str "Open")]),
          ("changelog", Json.obj [("histories", Json.arr
            [Json.obj [("items", Json.arr
               [Json.obj [("field", Json.str "status")]])]])])]) :=
  (history_filter_matches_spec ["status"]
    [("fields", Json.obj [("summary", Json.str "S"), ("status", Json.str "Open")]),
     ("changelog", Json.obj [("histories", Json.arr
       [Json.obj [("items", Json.arr
          [Json.obj [("field", Json.str "status")],
           Json.obj [("field", Json.str "summary")]])],
        Json.obj [("items", Json.arr
          [Json.obj [("field", Json.str "summary")]])]])])]
    [("histories", Json.arr
       [Json.obj [("items", Json.arr
          [Json.obj [("field", Json.str "status")],
           Json.obj [("field", Json.str "summary")]])],
        Json.obj [("items", Json.arr
          [Json.obj [("field", Json.str "summary")]])]])]
    [Json.obj [("items", Json.arr
       [Json.obj [("field", Json.str "status")],
        Json.obj [("field", Json.str "summary")]])],
     Json.obj [("items", Json.arr
       [Json.obj [("field", Json.str "summary")]])]]
    rfl rfl (by decide)).trans rfl

theorem filterItems_mem_true (hf : List String) (items kept : List Json)
    (h : filterItems hf items = some kept) :
    ∀ x ∈ kept, itemKeep hf x = some true := by
  induction items generalizing kept with
  | nil =>
    cases h
    intro x hx
    cases hx
  | cons i rest ih =>
    simp only [filterItems] at h
    cases hk : itemKeep hf i with
    | none => rw [hk] at h; cases h
    | some b =>
      rw [hk] at h
      cases ht : filterItems hf rest with
      | none => rw [ht] at h; cases h
      | some tail =>
        rw [ht] at h
        simp only [Option.bind_eq_bind, Option.some_bind] at h
        cases b with
        | true =>
          cases h
          intro x hx
          rcases List.mem_cons.mp hx with hx1 | hx2
          · rw [hx1]; exact hk
          · exact ih tail ht x hx2
        | false =>
          cases h
          exact ih tail ht

theorem filterItems_fixpoint (hf : List String) (l : List Json)
    (h : ∀ x ∈ l, itemKeep hf x = some true) :
    filterItems hf l = some l := by
  induction l with
  | nil => rfl
  | cons i rest ih =>
    simp only [filterItems]
    rw [h i (by simp), ih (fun x hx => h x (by simp [hx]))]
    rfl

theorem filterHist_stable (hf : List String) (hist h1 : Json)
    (h : filterHist hf hist = some (some h1)) :
    filterHist hf h1 = some (some h1) := by
  cases hist with
  | obj entries =>
    simp only [filterHist] at h
    cases hv : objGet entries "items" with
    | none =>
      rw [hv] at h
      simp [show filterItems hf [] = some [] from rfl] at h
    | some v =>
      cases v with
      | arr items =>
        rw [hv] at h
        cases hfi : filterItems hf items with
        | none => simp [hfi] at h
        | some kept =>
          simp only [hfi] at h
          cases hk : kept.isEmpty with
          | true => simp [hk] at h
          | false =>
            simp only [hk] at h
            have hh1 : h1 = Json.obj (objSet entries "items" (Json.arr kept)) := by
              simpa using h.symm
            subst hh1
            have hkept := filterItems_fixpoint hf kept (filterItems_mem_true hf items kept hfi)
            simp [filterHist, objGet_objSet_self, hkept, hk, objSet_objSet]
      | null => rw [hv] at h; simp at h
      | bool b => rw [hv] at h; simp at h
      | num n => rw [hv] at h; simp at h
      | str s => rw [hv] at h; simp at h
      | obj o => rw [hv] at h; simp at h
  | null => simp [filterHist] at h
  | bool b => simp [filterHist] at h
  | num n => simp [filterHist] at h
  | str s => simp [filterHist] at h
  | arr elems => simp [filterHist] at h

theorem filterHistories_stable (hf : List String) (hists out : List Json)
    (h : filterHistories hf hists = some out) :
    filterHistories hf out = some out := by
  induction hists generalizing out with
  | nil =>
    cases h
    rfl
  | cons hh rest ih =>
    simp only [filterHistories] at h
    cases hk : filterHist hf hh with
    | none => rw [hk] at h; cases h
    | some kept =>
      rw [hk] at h
      cases hrest : filterHistories hf rest with
      | none => rw [hrest] at h; cases h
      | some tail =>
        rw [hrest] at h
        simp only [Option.bind_eq_bind, Option.some_bind] at h
        cases kept with
        | none =>
          cases h
          exact ih tail hrest
        | some h1 =>
          cases h
          simp only [filterHistories]
          rw [filterHist_stable hf hh h1 hk, ih tail hrest]
          rfl

theorem filterIssue_stable (hf : List String) (issue out : Json)
    (h : filterIssue hf issue = some out) :
    filterIssue hf out = some out := by
  cases issue with
  | obj entries =>
    simp only [filterIssue] at h
    cases hch : objGet entries "changelog" with
    | none =>
      rw [hch] at h
      cases h
      simp only [filterIssue]
      rw [hch]
    | some v =>
      cases v with
      | obj changelog =>
        rw [hch] at h
        cases hh : objGet changelog "histories" with
        | none =>
          simp only [hh] at h
          cases hfh : filterHistories hf [] with
          | none => rw [hfh] at h; cases h
          | some filtered =>
            rw [hfh] at h
            have hfil : filtered = [] := by cases hfh; rfl
            subst hfil
            have hout : out = Json.obj (objSet entries "changelog"
                (Json.obj (objSet changelog "histories" (Json.arr [])))) := by
              simpa using h.symm
            subst hout
            simp [filterIssue, objGet_objSet_self, objSet_objSet,
              show filterHistories hf [] = some [] from rfl]
        | some w =>
          cases w with
          | arr histories =>
            simp only [hh] at h
            cases hfh : filterHistories hf histories with
            | none => rw [hfh] at h; cases h
            | some filtered =>
              rw [hfh] at h
              have hout : out = Json.obj (objSet entries "changelog"
                  (Json.obj (objSet changelog "histories" (Json.arr filtered)))) := by
                simpa using h.symm
              subst hout
              have hstable := filterHistories_stable hf histories filtered hfh
              simp [filterIssue, objGet_objSet_self, objSet_objSet, hstable]
          | null => simp [hh] at h
          | bool b => simp [hh] at h
          | num n => simp [hh] at h
          | str s => simp [hh] at h
          | obj o => simp [hh] at h
      | null => rw [hch] at h; cases h
      | bool b => rw [hch] at h; cases h
      | num n => rw [hch] at h; cases h
      | str s => rw [hch] at h; cases h
      | arr elems => rw [hch] at h; cases h
  | null => simp [filterIssue] at h
  | bool b => simp [filterIssue] at h
  | num n => simp [filterIssue] at h
  | str s => simp [filterIssue] at h
  | arr elems => simp [filterIssue] at h

/-- Claim C7: the history filter is idempotent: for every issue list and
every requested history-field set, applying the filter to a result it already
produced yields that result again. -/
theorem history_filter_idempotent (hf : List String) (issues out : List Json)
    (h : filterIssues hf issues = some out) :
    filterIssues hf out = some out := by
  induction issues generalizing out with
  | nil =>
    cases h
    rfl
  | cons i rest ih =>
    simp only [filterIssues] at h
    cases hi : filterIssue hf i with
    | none => rw [hi] at h; cases h
    | some i1 =>
      rw [hi] at h
      cases hr : filterIssues hf rest with
      | none => rw [hr] at h; cases h
      | some tail =>
        rw [hr] at h
        simp only [Option.bind_eq_bind, Option.some_bind] at h
        cases h
        simp only [filterIssues]
        rw [filterIssue_stable hf i i1 hi, ih tail hr]
        rfl

theorem history_filter_idempotent_witness :
    filterIssues ["status"]
      [Json.obj [("changelog", Json.obj [("histories", Json.arr
        [Json.obj [("items", Json.arr [Json.obj [("field", Json.str "status")]])]])])]]
      = some [Json.obj [("changelog", Json.obj [("histories", Json.arr
          [Json.obj [("items", Json.arr [Json.obj [("field", Json.str "status")]])]])])]] :=
  history_filter_idempotent ["status"]
    [Json.obj [("changelog", Json.obj [("histories", Json.arr
      [Json.obj [("items", Json.arr
        [Json.obj [("field", Json.str "status")],
         Json.obj [("field", Json.str "summary")]])]])])]]
    [Json.obj [("changelog", Json.obj [("histories", Json.arr
      [Json.obj [("items", Json.arr [Json.obj [("field", Json.str "status")]])]])])]]
    rfl

theorem history_filter_adds_empty_histories_witness :
    filterIssue [] (Json.obj [("changelog", Json.obj [])])
      = some (Json.obj [("changelog", Json.obj [("histories", Json.arr [])])]) :=
  (history_filter_adds_empty_histories [] [("changelog", Json.obj [])] [] rfl rfl).1

end JiraDownloader
